import Mathlib

/-!
Verification of the reclaim-space planning engine of anaconda-webui
(`src/components/storage/ReclaimSpaceModal.jsx`).

The engine stages `remove`/`shrink` actions per device in a mapping from
device names to ordered action lists (`unappliedActions` in the source),
derives "effective" state through the device hierarchy, and turns the
staged actions into reclaimed-space totals compared against the required
installation size.

Device sizes and action values are JavaScript numbers holding byte
counts; they are embedded as `Int`.  The interactive shrink-size
resolution, which can produce fractional intermediate values, is
embedded over `ℚ` in the `ShrinkPopover` section.
-/

namespace Reclaim

/-- One staged action, as pushed by `onAction` in `DeviceActions`:
`{ type: action, value }` where `type` is `"remove"` or `"shrink"`.
A `remove` is pushed with the default `value = ""`, which JavaScript
arithmetic coerces to `0`, so it is embedded with value `0`. -/
structure ActionItem where
  type : String
  value : Int
  deriving DecidableEq, Repr

/-- A device record, the fields of the source's device objects that the
reclaim engine reads (`device.total.v`, `device.free.v`,
`device.parents.v`, `device.children.v`, `device.type.v`,
`device["is-disk"].v`). -/
structure Device where
  total : Int
  free : Int
  parents : List String
  children : List String
  type : String
  isDisk : Bool
  deriving DecidableEq, Repr

/-- The immutable device snapshot (`devices`, from `useOriginalDevices`):
a name-keyed collection of device records.  `names` is its key list
(`Object.keys(devices)`), `dev` the lookup. -/
structure DeviceGraph where
  names : List String
  dev : String → Device

/-- The staged-action ledger (`unappliedActions`): a mapping from device
names to ordered action lists, embedded as an association list in key
insertion order. -/
abbrev Ledger : Type := List (String × List ActionItem)

/-- Key list of the ledger (`Object.keys(unappliedActions)`). -/
def keysOf (L : Ledger) : List String := L.map Prod.fst

/-- Property lookup on the mapping: the entry of key `d`, if present. -/
def lookupSeq : Ledger → String → Option (List ActionItem)
  | [], _ => none
  | (k, s) :: L, d => if k = d then some s else lookupSeq L d

/-- The action sequence of one device (`unappliedActions[device]`). -/
def seqOf (L : Ledger) (d : String) : List ActionItem :=
  (lookupSeq L d).getD []

/-- Rewrite the entry of key `d` by `f`, leaving other entries alone.
This is how both `onAction` (push) and `onUndo` (pop) touch the mapping:
they mutate only `unappliedActions[device.name.v]`. -/
def updateAssoc (L : Ledger) (d : String) (f : List ActionItem → List ActionItem) : Ledger :=
  L.map (fun p => if p.1 = d then (p.1, f p.2) else p)

/-- Embeds `onAction`: pushes `{ type, value }` onto the device's sequence. -/
def appendA (L : Ledger) (d : String) (a : ActionItem) : Ledger :=
  updateAssoc L d (fun s => s ++ [a])

/-- Embeds `onUndo`: pops the most recent action of the device's sequence
(JavaScript `Array.prototype.pop`, which on an empty array is a silent
no-op returning `undefined`). -/
def undoLast (L : Ledger) (d : String) : Ledger :=
  updateAssoc L d (fun s => s.dropLast)

/-- The initial ledger built on modal open:
`Object.keys(devices).reduce((acc, device) => { acc[device] = []; return acc }, {})` —
every key mapped to the empty sequence. -/
def initLedger (names : List String) : Ledger :=
  names.map (fun n => (n, ([] : List ActionItem)))

/-- Modelled from the spec: `getDeviceAncestors` lives in
`src/helpers/storage.js`, which is not among the sources at hand.
Per §4.1 of the specification it "walks `parents` transitively, nearest
first, cycle-safe — must terminate even if input is malformed by
stopping at already-visited names".  Worklist traversal with a visited
set; `fuel` bounds the walk for termination. -/
def ancestorsAux (parentsOf : String → List String) :
    Nat → List String → List String → List String
  | 0, _, _ => []
  | _ + 1, _, [] => []
  | fuel + 1, visited, d :: work =>
    if visited.contains d then
      ancestorsAux parentsOf fuel visited work
    else
      d :: ancestorsAux parentsOf fuel (d :: visited) (parentsOf d ++ work)

/-- Modelled from the spec: ancestor query over the device snapshot
(see `ancestorsAux`); ancestors of `d`, nearest first, excluding `d`
itself. -/
def getDeviceAncestors (G : DeviceGraph) (d : String) : List String :=
  ancestorsAux (fun n => (G.dev n).parents)
    ((G.names.length + 1) * (G.names.length + 1)) [d] ((G.dev d).parents)

/-- Embeds `isDeviceRemoved` in `getReclaimableSpaceFromAction`: the device's
sequence contains a `remove` action. -/
def isDeviceRemoved (L : Ledger) (d : String) : Bool :=
  ((seqOf L d).map (fun a => a.type)).contains "remove"

/-- Embeds `isDeviceResized`: the device's sequence contains a `shrink`. -/
def isDeviceResized (L : Ledger) (d : String) : Bool :=
  ((seqOf L d).map (fun a => a.type)).contains "shrink"

/-- Embeds `isDeviceParentRemoved`: some transitive ancestor of the device has
a staged `remove`. -/
def isDeviceParentRemoved (G : DeviceGraph) (L : Ledger) (d : String) : Bool :=
  (getDeviceAncestors G d).any (fun a => isDeviceRemoved L a)

/-- The `action === "remove"` branch of `getReclaimableSpaceFromAction`:
filter the ledger keys to the removed devices without removed ancestors,
then accumulate `devices[device].total.v - devices[device].free.v`. -/
def reclaimRemove (G : DeviceGraph) (L : Ledger) : Int :=
  ((keysOf L).filter
      (fun d => isDeviceRemoved L d && !isDeviceParentRemoved G L d)).foldl
    (fun acc d => acc + (G.dev d).total - (G.dev d).free) 0

/-- Inner `reduce` of the `"shrink"` branch: over **every** action of
the device's sequence, accumulate `devices[device].total.v - action.value`. -/
def deviceShrinkSum (G : DeviceGraph) (L : Ledger) (d : String) : Int :=
  (seqOf L d).foldl (fun acc a => acc + (G.dev d).total - a.value) 0

/-- The `action === "shrink"` branch of `getReclaimableSpaceFromAction`. -/
def reclaimShrink (G : DeviceGraph) (L : Ledger) : Int :=
  ((keysOf L).filter
      (fun d => isDeviceResized L d && !isDeviceParentRemoved G L d)).foldl
    (fun acc d => acc + deviceShrinkSum G L d) 0

/-- Embeds `selectedSpaceToReclaim = selectedSpaceToDelete + selectedSpaceToShrink`
in `ReclaimFooter`. -/
def totalReclaimed (G : DeviceGraph) (L : Ledger) : Int :=
  reclaimRemove G L + reclaimShrink G L

/-- Embeds `status` in `ReclaimFooter`:
`(diskFreeSpace + selectedSpaceToReclaim) < requiredSize ? "warning" : "success"`. -/
def statusOf (diskFreeSpace requiredSize : Int) (G : DeviceGraph) (L : Ledger) : String :=
  if diskFreeSpace + totalReclaimed G L < requiredSize then "warning" else "success"

/-- The "Reclaim space" commit button:
`isDisabled={status === "warning" || isFormDisabled}`; the control is
enabled when not disabled. -/
def reclaimButtonEnabled (status : String) (isFormDisabled : Bool) : Bool :=
  !(status == "warning" || isFormDisabled)

/-! ### Per-device display state (`DeviceActions` and friends) -/

/-- Embeds `getDeviceActionOfType`: the first action of the given type in the
device's sequence (`Array.prototype.find`). -/
def getDeviceActionOfType (L : Ledger) (d : String) (t : String) : Option ActionItem :=
  (seqOf L d).find? (fun a => a.type == t)

/-- Embeds `parentHasRemove` in `DeviceActions`: some **immediate** parent of
the device has a staged `remove`. -/
def parentHasRemove (G : DeviceGraph) (L : Ledger) (d : String) : Bool :=
  (G.dev d).parents.any (fun p => (getDeviceActionOfType L p "remove").isSome)

/-- Embeds `hasBeenRemoved` in `DeviceActions`. -/
def hasBeenRemoved (G : DeviceGraph) (L : Ledger) (d : String) : Bool :=
  parentHasRemove G L d || (getDeviceActionOfType L d "remove").isSome

/-- Embeds `newDeviceSize` in `DeviceActions`: the value of the first staged
`shrink`, when any. -/
def newDeviceSizeOpt (L : Ledger) (d : String) : Option Int :=
  (getDeviceActionOfType L d "shrink").map (fun a => a.value)

/-- Embeds `hasUnappliedActions` in `DeviceActions`:
`!parentHasRemove && unappliedActions[device.name.v].length > 0`;
this gates the undo button. -/
def hasUnappliedActions (G : DeviceGraph) (L : Ledger) (d : String) : Bool :=
  !parentHasRemove G L d && decide (0 < (seqOf L d).length)

/-! ### Spec-side derived notions

Definitions following the claims' wording, to be compared with the
source-derived functions above. -/

/-- Spec §3: a device is *effectively removed* if it has a `remove`
action or some transitive ancestor has one. -/
def effectivelyRemoved (G : DeviceGraph) (L : Ledger) (d : String) : Bool :=
  isDeviceRemoved L d || isDeviceParentRemoved G L d

/-- The device graph resolves `d`'s ancestry as a single-parent chain:
either `d` has no ancestors, or its ancestor list is its nearest
ancestor followed by that ancestor's own ancestor list.  This holds for
every well-formed disk/partition forest and is checkable on concrete
snapshots. -/
def chainCondB (G : DeviceGraph) (d : String) : Bool :=
  match (getDeviceAncestors G d).head? with
  | none => true
  | some p => getDeviceAncestors G d == p :: getDeviceAncestors G p

/-- Claim-side filter for the `remove` accounting: effectively removed,
and the nearest ancestor (the head of the nearest-first ancestor list,
when there is one) is not itself effectively removed. -/
def claimRemoveFilter (G : DeviceGraph) (L : Ledger) (d : String) : Bool :=
  effectivelyRemoved G L d &&
    match (getDeviceAncestors G d).head? with
    | none => true
    | some p => !effectivelyRemoved G L p

/-- Claim-side `reclaimedBytes(remove)`: sum of `total - free` over
exactly the devices passing `claimRemoveFilter`. -/
def claimRemoveSum (G : DeviceGraph) (L : Ledger) : Int :=
  (((keysOf L).filter (claimRemoveFilter G L)).map
    (fun d => (G.dev d).total - (G.dev d).free)).sum

/-- The filter of the code's `"shrink"` branch, as one predicate. -/
def shrinkFilter (G : DeviceGraph) (L : Ledger) (d : String) : Bool :=
  isDeviceResized L d && !isDeviceParentRemoved G L d

/-- One device's contribution to `reclaimedBytes(shrink)` in the code:
its full-sequence accumulation when it passes the filter, else zero. -/
def shrinkContribution (G : DeviceGraph) (L : Ledger) (d : String) : Int :=
  if shrinkFilter G L d then deviceShrinkSum G L d else 0

/-- Claim-side filter for the `shrink` accounting, following C2's words:
the device's most recent action is a `shrink` and the device is not
effectively removed (neither directly nor via an ancestor). -/
def claimShrinkFilter (G : DeviceGraph) (L : Ledger) (d : String) : Bool :=
  ((seqOf L d).getLast?.elim false (fun a => a.type == "shrink")) &&
    !effectivelyRemoved G L d

/-- Claim-side `reclaimedBytes(shrink)`: over devices passing
`claimShrinkFilter`, the sum of `total - value` across every `shrink`
action in the device's sequence. -/
def claimShrinkSum (G : DeviceGraph) (L : Ledger) : Int :=
  (((keysOf L).filter (claimShrinkFilter G L)).map
    (fun d => (((seqOf L d).filter (fun a => a.type == "shrink")).map
      (fun a => (G.dev d).total - a.value)).sum)).sum

/-- Amended per-device `shrink` contribution: the sequence contains at
least one `shrink`, no ancestor is effectively removed, and then every
action of the sequence (a `remove` counting with value `0`) contributes
`total - value`. -/
def amendedShrinkContribution (G : DeviceGraph) (L : Ledger) (d : String) : Int :=
  if isDeviceResized L d && !((getDeviceAncestors G d).any (effectivelyRemoved G L)) then
    ((seqOf L d).map (fun a => (G.dev d).total - a.value)).sum
  else 0

/-- Claim-side undo availability, following C9's words: sequence
non-empty and no transitive ancestor is effectively removed. -/
def claimHasAnyAction (G : DeviceGraph) (L : Ledger) (d : String) : Bool :=
  decide (seqOf L d ≠ []) && !((getDeviceAncestors G d).any (effectivelyRemoved G L))

/-! ### Status / commit-control state -/

/-- The conjunction of conditions under which the "Reclaim space"
button of `ReclaimFooter` is clickable, resolved against the ledger. -/
def commitControlEnabled (free req : Int) (G : DeviceGraph) (L : Ledger)
    (isFormDisabled : Bool) : Bool :=
  reclaimButtonEnabled (statusOf free req G L) isFormDisabled

/-! ### ShrinkPopover input resolution over the rationals -/

/-- The typed-input branch of the `Slider` `onChange`:
`Math.min(device.total.v, inputValue * unitMultiplier[originalUnit])`.
`unitMultiplier` (from `src/helpers/storage.js`, not among the sources)
is passed as the `mult` argument; per the spec it converts the entered
unit to bytes. -/
def resolveUnitInput (total inputValue mult : ℚ) : ℚ :=
  min total (inputValue * mult)

/-- The slider branch of the `onChange`:
`Math.round((sliderValue / 100) * device.total.v)`; JavaScript
`Math.round` is round-half-up, as is Mathlib's `round`. -/
def resolveSliderInput (total sliderValue : ℚ) : ℤ :=
  round (sliderValue / 100 * total)

/-- The Resize button of the popover:
`isDisabled={value === 0 || value === device.total.v}`; enabled when not
disabled. -/
def shrinkCommitEnabled (total value : ℚ) : Bool :=
  !(decide (value = 0) || decide (value = total))

/-! ### Commit submission (`onReclaim`) -/

/-- The staged plan in submission order: `Object.entries` iterates the
ledger's keys in insertion order, and within one device the actions in
append order. -/
def commitPlan (L : Ledger) : List (String × ActionItem) :=
  L.flatMap (fun p => p.2.map (fun a => (p.1, a)))

/-- The double loop of `onReclaim` over one flattened plan: submit each
action to the remote executor; on the first failure stop and report the
offending device and action kind together with the executor's opaque
error payload. -/
def runCommit {ε : Type} (exec : String → ActionItem → Except ε Unit) :
    List (String × ActionItem) → List (String × ActionItem) × Option (String × String × ε)
  | [] => ([], none)
  | (d, a) :: rest =>
    match exec d a with
    | Except.ok _ => ((d, a) :: (runCommit exec rest).1, (runCommit exec rest).2)
    | Except.error e => ([(d, a)], some (d, a.type, e))

/-- Outcome of a confirmed reclaim run: the submitted calls in order,
the reported error (if any), the ledger afterwards (`onReclaim` never
writes `unappliedActions`), and whether the dialog advances
(`setOnNextClicked(true)` only after a fully successful loop). -/
structure CommitResult (ε : Type) where
  submitted : List (String × ActionItem)
  error : Option (String × String × ε)
  ledgerAfter : Ledger
  next : Bool

/-- Embeds `onReclaim`, packaged over an abstract remote executor. -/
def onReclaim {ε : Type} (exec : String → ActionItem → Except ε Unit)
    (L : Ledger) : CommitResult ε :=
  { submitted := (runCommit exec (commitPlan L)).1
    error := (runCommit exec (commitPlan L)).2
    ledgerAfter := L
    next := ((runCommit exec (commitPlan L)).2).isNone }

/-! ### Snapshot construction -/

/-- Modelled from the spec: worklist walk along `children` links used to
express which devices the device source delivers (`useOriginalDevices`
is defined in `src/components/storage/Common.jsx`, not among the
sources; per §6 the source "supplies the immutable Device snapshot set
for a given selection of top-level disks"). -/
def snapshotAux (childrenOf : String → List String) :
    Nat → List String → List String → List String
  | 0, _, _ => []
  | _ + 1, _, [] => []
  | fuel + 1, visited, d :: work =>
    if visited.contains d then
      snapshotAux childrenOf fuel visited work
    else
      d :: snapshotAux childrenOf fuel (d :: visited) (childrenOf d ++ work)

/-- Modelled from the spec: the names of the devices reachable from the
currently selected disks — the key set of the device snapshot. -/
def snapshotNames (G : DeviceGraph) (sel : List String) : List String :=
  snapshotAux (fun n => (G.dev n).children)
    ((G.names.length + 1) * (G.names.length + 1)) [] sel

/-! ### The interactive session as a transition system

`getDeviceRow` renders the selected disks at level 0 and each device's
children one level deeper; `DeviceActions` returns `null` for
`level > 1`, so controls exist only for selected disks and their
immediate children.  Each control's visibility/enablement conditions are
taken from `DeviceActionDelete`, `DeviceActionShrink`, `ShrinkPopover`
and the undo button. -/

/-- A device is rendered with action controls: it is a selected disk
(level 0) or an immediate child of one (level 1). -/
def shallow (G : DeviceGraph) (sel : List String) (d : String) : Bool :=
  sel.contains d || sel.any (fun s => (G.dev s).children.contains d)

/-- JavaScript truthiness of `newDeviceSize` (a staged shrink value of
`0` is falsy). -/
def newDeviceSizeTruthy (L : Ledger) (d : String) : Bool :=
  match newDeviceSizeOpt L d with
  | none => false
  | some v => decide (v ≠ 0)

/-- The delete control is visible and enabled: rendered at level ≤ 1,
no staged shrink (`newDeviceSize !== undefined` hides it), not already
removed, and not a partitionless disk
(`device.type.v === "disk" && device.children.v.length === 0` disables
it). -/
def canStageRemove (G : DeviceGraph) (sel : List String) (L : Ledger) (d : String) : Bool :=
  shallow G sel d && (newDeviceSizeOpt L d).isNone && !hasBeenRemoved G L d &&
    !((G.dev d).type == "disk" && (G.dev d).children.isEmpty)

/-- The shrink popover's Resize action is available for value `v`:
rendered at level ≤ 1, not removed, no truthy staged shrink, not a disk,
the shrinkability oracle resolved to true, and `v` is neither `0` nor
the device's total. -/
def canStageShrink (G : DeviceGraph) (sel : List String) (shrinkable : String → Bool)
    (L : Ledger) (d : String) (v : Int) : Bool :=
  shallow G sel d && !hasBeenRemoved G L d && !newDeviceSizeTruthy L d &&
    !((G.dev d).type == "disk") && shrinkable d &&
    !(decide (v = 0) || decide (v = (G.dev d).total))

/-- The undo button is offered: rendered at level ≤ 1 and
`hasUnappliedActions`. -/
def canUndo (G : DeviceGraph) (sel : List String) (L : Ledger) (d : String) : Bool :=
  shallow G sel d && hasUnappliedActions G L d

/-- A user interaction with the staging controls. -/
inductive UIEvent where
  | stageRemove (d : String)
  | stageShrink (d : String) (v : Int)
  | undo (d : String)
  deriving DecidableEq, Repr

/-- One interaction step: apply the event when its control is offered,
refuse otherwise. -/
def uiStep (G : DeviceGraph) (sel : List String) (shrinkable : String → Bool)
    (L : Ledger) : UIEvent → Option Ledger
  | UIEvent.stageRemove d =>
    if canStageRemove G sel L d then some (appendA L d ⟨"remove", 0⟩) else none
  | UIEvent.stageShrink d v =>
    if canStageShrink G sel shrinkable L d v then some (appendA L d ⟨"shrink", v⟩) else none
  | UIEvent.undo d =>
    if canUndo G sel L d then some (undoLast L d) else none

/-- Run a sequence of interactions from a ledger state. -/
def uiRun (G : DeviceGraph) (sel : List String) (shrinkable : String → Bool) :
    Ledger → List UIEvent → Option Ledger
  | L, [] => some L
  | L, e :: evs =>
    match uiStep G sel shrinkable L e with
    | none => none
    | some L' => uiRun G sel shrinkable L' evs

/-! ### Concrete fixtures -/

/-- The spec's scenario snapshot: disk `sda` (total 100, free 20) with
one partition `sda1` (total 80, free 20). -/
def Gsda : DeviceGraph where
  names := ["sda", "sda1"]
  dev := fun n =>
    if n = "sda" then ⟨100, 20, [], ["sda1"], "disk", true⟩
    else if n = "sda1" then ⟨80, 20, ["sda"], [], "partition", false⟩
    else ⟨0, 0, [], [], "", false⟩

/-- Ledger with `remove(sda1)` staged. -/
def LsdaOne : Ledger := [("sda", []), ("sda1", [⟨"remove", 0⟩])]

/-- Ledger with `remove(sda1)` and then `remove(sda)` staged. -/
def LsdaBoth : Ledger := [("sda", [⟨"remove", 0⟩]), ("sda1", [⟨"remove", 0⟩])]

/-- Single free-standing partition, used to exercise the shrink
accounting on a sequence holding both a shrink and a remove. -/
def Gpart : DeviceGraph where
  names := ["sda1"]
  dev := fun n =>
    if n = "sda1" then ⟨80, 20, [], [], "partition", false⟩
    else ⟨0, 0, [], [], "", false⟩

/-- Sequence `[shrink 50, remove]` for `sda1`. -/
def LshrinkRemove : Ledger := [("sda1", [⟨"shrink", 50⟩, ⟨"remove", 0⟩])]

/-- Ledger with `sda1` shrink-staged to 50. -/
def Lshrink50 : Ledger := [("sda1", [⟨"shrink", 50⟩])]

/-- Snapshot for the status scenario: disk `sda` with partitions `p1`
(total 400, free 50) and `p2` (total 200, free 100). -/
def Gstatus : DeviceGraph where
  names := ["sda", "p1", "p2"]
  dev := fun n =>
    if n = "sda" then ⟨600, 150, [], ["p1", "p2"], "disk", true⟩
    else if n = "p1" then ⟨400, 50, ["sda"], [], "partition", false⟩
    else if n = "p2" then ⟨200, 100, ["sda"], [], "partition", false⟩
    else ⟨0, 0, [], [], "", false⟩

/-- Ledger with `remove(p1)` staged: 350 bytes reclaimed. -/
def Lstatus : Ledger := [("sda", []), ("p1", [⟨"remove", 0⟩]), ("p2", [])]

/-- Ledger with `remove(p1)` and `shrink(p2, 140)` staged: 410 bytes reclaimed. -/
def LstatusMore : Ledger := [("sda", []), ("p1", [⟨"remove", 0⟩]), ("p2", [⟨"shrink", 140⟩])]

/-- Ledger with a single device with an empty sequence. -/
def Lempty : Ledger := [("sda", [])]

/-- Three-level chain `a → b → c` (`b` a child of `a`, `c` of `b`). -/
def Gchain : DeviceGraph where
  names := ["a", "b", "c"]
  dev := fun n =>
    if n = "a" then ⟨100, 10, [], ["b"], "disk", true⟩
    else if n = "b" then ⟨90, 10, ["a"], ["c"], "partition", false⟩
    else if n = "c" then ⟨80, 10, ["b"], [], "partition", false⟩
    else ⟨0, 0, [], [], "", false⟩

/-- Ledger with `remove(a)` staged, `c` holding a `shrink`, `b` untouched. -/
def Lchain : Ledger := [("a", [⟨"remove", 0⟩]), ("b", []), ("c", [⟨"shrink", 10⟩])]

/-- A concrete remote executor failing exactly on device `p2`. -/
def execFailP2 : String → ActionItem → Except String Unit :=
  fun d _ => if d = "p2" then Except.error "boom" else Except.ok ()

/-- A single disk with no partitions. -/
def Gdisk : DeviceGraph where
  names := ["sdb"]
  dev := fun n =>
    if n = "sdb" then ⟨100, 10, [], [], "disk", true⟩
    else ⟨0, 0, [], [], "", false⟩

/-- The session invariant of claim C10: devices without controls
(neither a selected disk nor an immediate child of one) have empty
sequences, and no childless disk ever holds a staged `remove`. -/
def deepInvariant (G : DeviceGraph) (sel : List String) (L : Ledger) : Prop :=
  (∀ d, shallow G sel d = false → seqOf L d = []) ∧
    (∀ d, (G.dev d).type = "disk" → (G.dev d).children = [] →
      ∀ a ∈ seqOf L d, a.type ≠ "remove")

/-! ## Helper lemmas -/

/-- Case split obtained from `chainCondB`. -/
lemma chainCondB_cases {G : DeviceGraph} {d : String} (h : chainCondB G d = true) :
    getDeviceAncestors G d = [] ∨
      ∃ p, getDeviceAncestors G d = p :: getDeviceAncestors G p := by
  unfold chainCondB at h
  rcases hanc : getDeviceAncestors G d with _ | ⟨p, t⟩
  · exact Or.inl rfl
  · right
    refine ⟨p, ?_⟩
    rw [hanc] at h
    simp only [List.head?] at h
    exact eq_of_beq h

/-- Accumulating `acc + g d` along a list is adding the mapped sum. -/
lemma foldl_add_map {α : Type} (g : α → Int) :
    ∀ (l : List α) (c : Int), l.foldl (fun acc d => acc + g d) c = c + (l.map g).sum
  | [], c => by simp
  | a :: l, c => by
    simp only [List.foldl, List.map, List.sum_cons]
    rw [foldl_add_map g l (c + g a)]
    ring

/-- Accumulating `acc + g d - h d` along a list is adding the mapped
difference sum. -/
lemma foldl_add_sub_map {α : Type} (g h : α → Int) :
    ∀ (l : List α) (c : Int),
      l.foldl (fun acc d => acc + g d - h d) c = c + (l.map (fun d => g d - h d)).sum
  | [], c => by simp
  | a :: l, c => by
    simp only [List.foldl, List.map, List.sum_cons]
    rw [foldl_add_sub_map g h l (c + g a - h a)]
    ring

/-- Summing a function over a filtered list equals summing its guarded
variant over the whole list. -/
lemma sum_filter_eq_sum_ite {α : Type} (p : α → Bool) (f : α → Int) :
    ∀ l : List α,
      ((l.filter p).map f).sum = (l.map (fun a => if p a then f a else 0)).sum
  | [] => by simp
  | a :: l => by
    by_cases h : p a = true
    · simp [List.filter_cons, h, sum_filter_eq_sum_ite p f l]
    · simp [List.filter_cons, h, sum_filter_eq_sum_ite p f l]

/-- Update `updateAssoc` keeps the key list. -/
lemma keysOf_updateAssoc (L : Ledger) (d : String) (f : List ActionItem → List ActionItem) :
    keysOf (updateAssoc L d f) = keysOf L := by
  induction L with
  | nil => rfl
  | cons p L ih =>
    simp only [keysOf, updateAssoc, List.map] at *
    by_cases h : p.1 = d <;> simp [h, ih]

/-- Unfolding equation of `updateAssoc` on a cons cell. -/
lemma updateAssoc_cons (k : String) (s : List ActionItem) (L : Ledger) (d : String)
    (f : List ActionItem → List ActionItem) :
    updateAssoc ((k, s) :: L) d f
      = (if k = d then (k, f s) else (k, s)) :: updateAssoc L d f := by
  by_cases h : k = d <;> simp [updateAssoc, h]

/-- Lookup of the updated key. -/
lemma lookup_updateAssoc_self (L : Ledger) (d : String)
    (f : List ActionItem → List ActionItem) :
    lookupSeq (updateAssoc L d f) d = (lookupSeq L d).map f := by
  induction L with
  | nil => rfl
  | cons p L ih =>
    obtain ⟨k, s⟩ := p
    rw [updateAssoc_cons]
    by_cases h : k = d
    · rw [if_pos h]
      simp [lookupSeq, h]
    · rw [if_neg h]
      simp only [lookupSeq, if_neg h]
      exact ih

/-- Lookup of a different key is untouched by `updateAssoc`. -/
lemma lookup_updateAssoc_ne (L : Ledger) {d d' : String} (hne : d' ≠ d)
    (f : List ActionItem → List ActionItem) :
    lookupSeq (updateAssoc L d f) d' = lookupSeq L d' := by
  induction L with
  | nil => rfl
  | cons p L ih =>
    obtain ⟨k, s⟩ := p
    rw [updateAssoc_cons]
    by_cases h : k = d
    · have h2 : ¬(k = d') := by rw [h]; exact fun hc => hne hc.symm
      rw [if_pos h]
      simp only [lookupSeq, if_neg h2]
      exact ih
    · rw [if_neg h]
      by_cases h2 : k = d'
      · simp [lookupSeq, h2]
      · simp only [lookupSeq, if_neg h2]
        exact ih

/-- Two updates of the same key compose. -/
lemma updateAssoc_updateAssoc (L : Ledger) (d : String)
    (f g : List ActionItem → List ActionItem) :
    updateAssoc (updateAssoc L d f) d g = updateAssoc L d (fun s => g (f s)) := by
  induction L with
  | nil => rfl
  | cons p L ih =>
    obtain ⟨k, s⟩ := p
    by_cases h : k = d
    · rw [updateAssoc_cons, if_pos h, updateAssoc_cons, if_pos h,
        updateAssoc_cons, if_pos h, ih]
    · rw [updateAssoc_cons, if_neg h, updateAssoc_cons, if_neg h,
        updateAssoc_cons, if_neg h, ih]

/-- Updating with the identity changes nothing. -/
lemma updateAssoc_id (L : Ledger) (d : String) :
    updateAssoc L d (fun s => s) = L := by
  induction L with
  | nil => rfl
  | cons p L ih =>
    obtain ⟨k, s⟩ := p
    by_cases h : k = d <;> simp [updateAssoc_cons, h, ih]

/-- On a chain-resolved device the code's remove filter coincides with
the claim's. -/
lemma removeFilter_eq {G : DeviceGraph} {L : Ledger} {d : String}
    (h : chainCondB G d = true) :
    (isDeviceRemoved L d && !isDeviceParentRemoved G L d) = claimRemoveFilter G L d := by
  rcases chainCondB_cases h with hanc | ⟨p, hanc⟩
  · simp [claimRemoveFilter, effectivelyRemoved, isDeviceParentRemoved, hanc]
  · simp only [claimRemoveFilter, effectivelyRemoved, isDeviceParentRemoved, hanc,
      List.head?, List.any_cons]
    cases isDeviceRemoved L d <;> cases isDeviceRemoved L p <;>
      cases (getDeviceAncestors G p).any (fun a => isDeviceRemoved L a) <;> rfl

/-- Along chain-resolved ancestry, ancestry is transitive: an ancestor's
ancestor is an ancestor. -/
lemma anc_chain_trans {G : DeviceGraph} :
    ∀ (n : Nat) (d : String), (getDeviceAncestors G d).length ≤ n →
      chainCondB G d = true →
      (∀ x ∈ getDeviceAncestors G d, chainCondB G x = true) →
      ∀ a ∈ getDeviceAncestors G d, ∀ b ∈ getDeviceAncestors G a,
        b ∈ getDeviceAncestors G d := by
  intro n
  induction n with
  | zero =>
    intro d hlen _ _ a ha
    rw [List.length_eq_zero.mp (Nat.le_zero.mp hlen)] at ha
    exact absurd ha (List.not_mem_nil a)
  | succ n ih =>
    intro d hlen hd hall a ha b hb
    rcases chainCondB_cases hd with hanc | ⟨p, hanc⟩
    · rw [hanc] at ha
      exact absurd ha (List.not_mem_nil a)
    · rw [hanc] at ha ⊢
      rcases List.mem_cons.mp ha with heq | hap
      · subst heq
        exact List.mem_cons_of_mem _ hb
      · have hlenp : (getDeviceAncestors G p).length ≤ n := by
          rw [hanc] at hlen
          simpa [List.length_cons] using Nat.lt_succ_iff.mp (Nat.lt_of_lt_of_le
            (Nat.lt_succ_of_le (Nat.le_refl _)) hlen)
        have hp : chainCondB G p = true := by
          apply hall
          rw [hanc]
          exact List.mem_cons_self p _
        have hallp : ∀ x ∈ getDeviceAncestors G p, chainCondB G x = true := by
          intro x hx
          apply hall
          rw [hanc]
          exact List.mem_cons_of_mem p hx
        exact List.mem_cons_of_mem p (ih p hlenp hp hallp a hap b hb)

/-- Under chain-resolved ancestry, "some ancestor is effectively
removed" is the same as "some ancestor has a staged remove". -/
lemma any_effRemoved_eq {G : DeviceGraph} {L : Ledger} {d : String}
    (hd : chainCondB G d = true)
    (hall : ∀ x ∈ getDeviceAncestors G d, chainCondB G x = true) :
    (getDeviceAncestors G d).any (effectivelyRemoved G L)
      = (getDeviceAncestors G d).any (fun a => isDeviceRemoved L a) := by
  rw [Bool.eq_iff_iff, List.any_eq_true, List.any_eq_true]
  constructor
  · rintro ⟨a, ha, heff⟩
    rcases Bool.or_eq_true_iff.mp heff with hrm | hanc
    · exact ⟨a, ha, hrm⟩
    · rcases List.any_eq_true.mp hanc with ⟨b, hb, hrmb⟩
      exact ⟨b, anc_chain_trans (getDeviceAncestors G d).length d (Nat.le_refl _)
        hd hall a ha b hb, hrmb⟩
  · rintro ⟨a, ha, hrm⟩
    exact ⟨a, ha, Bool.or_eq_true_iff.mpr (Or.inl hrm)⟩

/-! ## Claim C1: remove accounting -/

/-- C1: `reclaimedBytes(remove)` equals the sum of `total - free` over
exactly the devices that are effectively removed and whose nearest
ancestor is not itself effectively removed (given that the snapshot
resolves ancestry as single-parent chains, as any disk/partition forest
does). -/
theorem C1_remove_accounting (G : DeviceGraph) (L : Ledger)
    (H : ∀ d ∈ keysOf L, chainCondB G d = true) :
    reclaimRemove G L = claimRemoveSum G L := by
  unfold reclaimRemove claimRemoveSum
  rw [foldl_add_sub_map (fun d => (G.dev d).total) (fun d => (G.dev d).free), zero_add]
  rw [List.filter_congr (fun d hd => removeFilter_eq (H d hd))]

/-- C1 witness: the spec's `sda`/`sda1` scenario.  The chain hypothesis
holds for the snapshot, the code's accounting matches the claim's sum on
both ledgers, staging `remove(sda1)` reclaims 60, and additionally
staging `remove(sda)` reclaims 80 (not 140). -/
theorem C1_remove_accounting_witness :
    (∀ d ∈ keysOf LsdaOne, chainCondB Gsda d = true) ∧
      reclaimRemove Gsda LsdaOne = claimRemoveSum Gsda LsdaOne ∧
      reclaimRemove Gsda LsdaBoth = claimRemoveSum Gsda LsdaBoth ∧
      reclaimRemove Gsda LsdaOne = 60 ∧
      reclaimRemove Gsda LsdaBoth = 80 :=
  ⟨by decide, C1_remove_accounting Gsda LsdaOne (by decide),
    C1_remove_accounting Gsda LsdaBoth (by decide), by decide, by decide⟩

/-! ## Claim C2: shrink accounting -/

/-- Accumulating `acc + t - a.value` along an action list is adding the
mapped difference sum. -/
lemma foldl_total_sub_value (t : Int) :
    ∀ (l : List ActionItem) (c : Int),
      l.foldl (fun acc a => acc + t - a.value) c = c + (l.map (fun a => t - a.value)).sum
  | [], c => by simp
  | a :: l, c => by
    simp only [List.foldl, List.map, List.sum_cons]
    rw [foldl_total_sub_value t l (c + t - a.value)]
    ring

/-- The inner accumulation written as a mapped sum. -/
lemma deviceShrinkSum_eq (G : DeviceGraph) (L : Ledger) (d : String) :
    deviceShrinkSum G L d
      = ((seqOf L d).map (fun a => (G.dev d).total - a.value)).sum := by
  unfold deviceShrinkSum
  rw [foldl_total_sub_value ((G.dev d).total) (seqOf L d), zero_add]

/-- Total `reclaimedBytes(shrink)` is the sum of the per-device contributions
over all ledger keys. -/
lemma reclaimShrink_eq_sum (G : DeviceGraph) (L : Ledger) :
    reclaimShrink G L = ((keysOf L).map (shrinkContribution G L)).sum := by
  unfold reclaimShrink
  rw [foldl_add_map (deviceShrinkSum G L), zero_add,
    sum_filter_eq_sum_ite _ (deviceShrinkSum G L)]
  rfl

/-- Under chain-resolved ancestry the code's per-device contribution is
the amended claim's contribution. -/
lemma shrinkContribution_eq_amended {G : DeviceGraph} {L : Ledger} {d : String}
    (hd : chainCondB G d = true)
    (hall : ∀ x ∈ getDeviceAncestors G d, chainCondB G x = true) :
    shrinkContribution G L d = amendedShrinkContribution G L d := by
  unfold shrinkContribution amendedShrinkContribution shrinkFilter isDeviceParentRemoved
  rw [any_effRemoved_eq hd hall, deviceShrinkSum_eq]

/-- C2 counterexample: on a free-standing partition whose sequence is
`[shrink 50, remove]`, the code's `reclaimedBytes(shrink)` is
`(80 - 50) + (80 - 0) = 110` — the device is not excluded by its own
remove, and the remove's (empty-string, i.e. zero) value is also
accumulated — whereas the claim's formula yields 0 (its most recent
action is not a shrink and it is effectively removed). -/
theorem C2_shrink_accounting_counterexample :
    reclaimShrink Gpart LshrinkRemove = 110 ∧
      claimShrinkSum Gpart LshrinkRemove = 0 ∧
      reclaimShrink Gpart LshrinkRemove ≠ claimShrinkSum Gpart LshrinkRemove := by
  refine ⟨by decide, by decide, ?_⟩
  decide

/-- C2 amended: `reclaimedBytes(shrink)` is the sum, over devices whose
sequence contains at least one shrink action and that have no
effectively removed ancestor, of `total - value` over **every** action
of the sequence (a staged remove counting with value 0); and any device
with an effectively removed ancestor contributes zero. -/
theorem C2_shrink_accounting_amended (G : DeviceGraph) (L : Ledger)
    (H : ∀ d ∈ keysOf L, chainCondB G d = true ∧
      ∀ x ∈ getDeviceAncestors G d, chainCondB G x = true) :
    reclaimShrink G L = ((keysOf L).map (amendedShrinkContribution G L)).sum ∧
      reclaimShrink G L = ((keysOf L).map (shrinkContribution G L)).sum ∧
      ∀ d ∈ keysOf L,
        (getDeviceAncestors G d).any (effectivelyRemoved G L) = true →
          shrinkContribution G L d = 0 := by
  refine ⟨?_, reclaimShrink_eq_sum G L, ?_⟩
  · rw [reclaimShrink_eq_sum G L]
    exact congrArg List.sum (List.map_congr_left
      (fun d hd => shrinkContribution_eq_amended (H d hd).1 (H d hd).2))
  · intro d hd hanc
    rw [any_effRemoved_eq (H d hd).1 (H d hd).2] at hanc
    unfold shrinkContribution shrinkFilter isDeviceParentRemoved
    rw [hanc]
    simp

/-- C2 witness: the amended characterisation applied to the
counterexample snapshot, together with the spec's shrink scenario
(`shrink(sda1, 50)` reclaims 30; after `undoLast(sda1)` it is 0). -/
theorem C2_shrink_accounting_amended_witness :
    (∀ d ∈ keysOf LshrinkRemove, chainCondB Gpart d = true ∧
        ∀ x ∈ getDeviceAncestors Gpart d, chainCondB Gpart x = true) ∧
      reclaimShrink Gpart LshrinkRemove
        = ((keysOf LshrinkRemove).map (amendedShrinkContribution Gpart LshrinkRemove)).sum ∧
      reclaimShrink Gpart Lshrink50 = 30 ∧
      reclaimShrink Gpart (undoLast Lshrink50 "sda1") = 0 :=
  ⟨by decide, (C2_shrink_accounting_amended Gpart LshrinkRemove (by decide)).1,
    by decide, by decide⟩

/-- The initial ledger's keys are exactly the snapshot's names. -/
lemma keysOf_initLedger (names : List String) :
    keysOf (initLedger names) = names := by
  induction names with
  | nil => rfl
  | cons n ns ih =>
    simp only [keysOf, initLedger, List.map] at ih ⊢
    rw [ih]

/-- Every snapshot name is initially mapped to the empty sequence. -/
lemma lookup_initLedger {names : List String} {d : String} (h : d ∈ names) :
    lookupSeq (initLedger names) d = some [] := by
  induction names with
  | nil => exact absurd h (List.not_mem_nil d)
  | cons n ns ih =>
    by_cases hn : n = d
    · simp [initLedger, lookupSeq, hn]
    · have hd : d ∈ ns := by
        rcases List.mem_cons.mp h with heq | hm
        · exact absurd heq.symm hn
        · exact hm
      simp only [initLedger, List.map, lookupSeq, if_neg hn]
      exact ih hd

/-- Every device's sequence is initially empty (also for names outside
the mapping, where the lookup defaults to the empty list). -/
lemma seqOf_initLedger (names : List String) (d : String) :
    seqOf (initLedger names) d = [] := by
  by_cases h : d ∈ names
  · rw [seqOf, lookup_initLedger h]
    rfl
  · rw [seqOf]
    induction names with
    | nil => rfl
    | cons n ns ih =>
      have hn : ¬(n = d) := fun hc => h (hc ▸ List.mem_cons_self n ns)
      simp only [initLedger, List.map, lookupSeq, if_neg hn]
      exact ih (fun hc => h (List.mem_cons_of_mem n hc))

/-! ## Claim C10: depth and childless-disk staging limits -/

/-- Appending to one device leaves other devices' sequences alone. -/
lemma seqOf_appendA_ne {L : Ledger} {d d' : String} (h : d' ≠ d) (a : ActionItem) :
    seqOf (appendA L d a) d' = seqOf L d' := by
  rw [seqOf, appendA, lookup_updateAssoc_ne L h, seqOf]

/-- Undoing on one device leaves other devices' sequences alone. -/
lemma seqOf_undoLast_ne {L : Ledger} {d d' : String} (h : d' ≠ d) :
    seqOf (undoLast L d) d' = seqOf L d' := by
  rw [seqOf, undoLast, lookup_updateAssoc_ne L h, seqOf]

/-- Any element of the sequence after an append was there before or is
the appended action. -/
lemma mem_seqOf_appendA {L : Ledger} {d : String} {a x : ActionItem}
    (hx : x ∈ seqOf (appendA L d a) d) : x ∈ seqOf L d ∨ x = a := by
  rw [seqOf, appendA, lookup_updateAssoc_self] at hx
  cases h : lookupSeq L d with
  | none =>
    rw [h] at hx
    exact absurd hx (List.not_mem_nil x)
  | some s =>
    rw [h] at hx
    simp only [Option.map_some', Option.getD_some] at hx
    rcases List.mem_append.mp hx with hm | hm
    · left
      rw [seqOf, h]
      exact hm
    · right
      simpa using hm

/-- Any element of the sequence after an undo was there before. -/
lemma mem_seqOf_undoLast {L : Ledger} {d : String} {x : ActionItem}
    (hx : x ∈ seqOf (undoLast L d) d) : x ∈ seqOf L d := by
  rw [seqOf, undoLast, lookup_updateAssoc_self] at hx
  cases h : lookupSeq L d with
  | none =>
    rw [h] at hx
    exact absurd hx (List.not_mem_nil x)
  | some s =>
    rw [h] at hx
    simp only [Option.map_some', Option.getD_some] at hx
    rw [seqOf, h]
    exact (List.dropLast_sublist s).subset hx

/-- An empty sequence stays empty across an undo. -/
lemma seqOf_undoLast_empty {L : Ledger} {d : String} (h : seqOf L d = []) :
    seqOf (undoLast L d) d = [] := by
  rw [seqOf, undoLast, lookup_updateAssoc_self]
  cases hl : lookupSeq L d with
  | none => rfl
  | some s =>
    rw [seqOf, hl] at h
    simp only [Option.getD_some] at h
    rw [h]
    rfl

/-- One interaction step preserves the session invariant. -/
lemma uiStep_deepInvariant {G : DeviceGraph} {sel : List String}
    {shrinkable : String → Bool} {L L' : Ledger} {e : UIEvent}
    (hI : deepInvariant G sel L) (h : uiStep G sel shrinkable L e = some L') :
    deepInvariant G sel L' := by
  obtain ⟨h1, h2⟩ := hI
  cases e with
  | stageRemove d =>
    simp only [uiStep] at h
    by_cases hc : canStageRemove G sel L d = true
    · rw [if_pos hc] at h
      obtain rfl : appendA L d ⟨"remove", 0⟩ = L' := Option.some.injEq _ _ ▸ h
      have hsh : shallow G sel d = true := by
        simp only [canStageRemove, Bool.and_eq_true] at hc
        exact hc.1.1.1
      constructor
      · intro d' hd'
        have hne : d' ≠ d := fun hc2 => by rw [hc2, hsh] at hd'; cases hd'
        rw [seqOf_appendA_ne hne]
        exact h1 d' hd'
      · intro d' hty hch a ha
        by_cases hne : d' = d
        · subst hne
          exfalso
          simp only [canStageRemove, Bool.and_eq_true] at hc
          have := hc.2
          rw [hty, hch] at this
          simp at this
        · rw [seqOf_appendA_ne hne] at ha
          exact h2 d' hty hch a ha
    · rw [if_neg hc] at h
      cases h
  | stageShrink d v =>
    simp only [uiStep] at h
    by_cases hc : canStageShrink G sel shrinkable L d v = true
    · rw [if_pos hc] at h
      obtain rfl : appendA L d ⟨"shrink", v⟩ = L' := Option.some.injEq _ _ ▸ h
      have hsh : shallow G sel d = true := by
        simp only [canStageShrink, Bool.and_eq_true] at hc
        exact hc.1.1.1.1.1
      constructor
      · intro d' hd'
        have hne : d' ≠ d := fun hc2 => by rw [hc2, hsh] at hd'; cases hd'
        rw [seqOf_appendA_ne hne]
        exact h1 d' hd'
      · intro d' hty hch a ha
        by_cases hne : d' = d
        · subst hne
          rcases mem_seqOf_appendA ha with hm | hm
          · exact h2 d' hty hch a hm
          · rw [hm]
            simp
        · rw [seqOf_appendA_ne hne] at ha
          exact h2 d' hty hch a ha
    · rw [if_neg hc] at h
      cases h
  | undo d =>
    simp only [uiStep] at h
    by_cases hc : canUndo G sel L d = true
    · rw [if_pos hc] at h
      obtain rfl : undoLast L d = L' := Option.some.injEq _ _ ▸ h
      constructor
      · intro d' hd'
        by_cases hne : d' = d
        · subst hne
          exact seqOf_undoLast_empty (h1 d' hd')
        · rw [seqOf_undoLast_ne hne]
          exact h1 d' hd'
      · intro d' hty hch a ha
        by_cases hne : d' = d
        · subst hne
          exact h2 d' hty hch a (mem_seqOf_undoLast ha)
        · rw [seqOf_undoLast_ne hne] at ha
          exact h2 d' hty hch a ha
    · rw [if_neg hc] at h
      cases h

/-- A whole interaction run preserves the session invariant. -/
lemma uiRun_deepInvariant {G : DeviceGraph} {sel : List String}
    {shrinkable : String → Bool} :
    ∀ (evs : List UIEvent) (L L' : Ledger), deepInvariant G sel L →
      uiRun G sel shrinkable L evs = some L' → deepInvariant G sel L' := by
  intro evs
  induction evs with
  | nil =>
    intro L L' hI h
    obtain rfl : L = L' := Option.some.injEq _ _ ▸ h
    exact hI
  | cons e evs ih =>
    intro L L' hI h
    unfold uiRun at h
    cases hstep : uiStep G sel shrinkable L e with
    | none => rw [hstep] at h; cases h
    | some L1 =>
      rw [hstep] at h
      exact ih L1 L' (uiStep_deepInvariant hI hstep) h

/-- C10: over any interaction run from the freshly constructed ledger,
devices that are neither a selected disk nor an immediate partition of
one (i.e. anything nested two or more levels deep) never acquire a
staged action — their sequences stay empty — and no childless disk ever
holds a staged `remove`. -/
theorem C10_action_depth_limits (G : DeviceGraph) (sel : List String)
    (shrinkable : String → Bool) (evs : List UIEvent) (L' : Ledger)
    (h : uiRun G sel shrinkable (initLedger (snapshotNames G sel)) evs = some L') :
    (∀ d, shallow G sel d = false → seqOf L' d = []) ∧
      (∀ d, (G.dev d).type = "disk" → (G.dev d).children = [] →
        ∀ a ∈ seqOf L' d, a.type ≠ "remove") := by
  have hinit : deepInvariant G sel (initLedger (snapshotNames G sel)) := by
    constructor
    · intro d _
      exact seqOf_initLedger _ d
    · intro d _ _ a ha
      rw [seqOf_initLedger _ d] at ha
      exact absurd ha (List.not_mem_nil a)
  exact uiRun_deepInvariant evs _ L' hinit h

/-- C10 witness: a run staging a shrink, undoing it, then staging a
remove on `sda1` ends with the expected ledger; a device outside the
rendered first two levels still has an empty sequence; and on a
partitionless disk even the attempt to stage a remove is refused by the
control (so its sequence can never contain one). -/
theorem C10_action_depth_limits_witness :
    uiRun Gsda ["sda"] (fun _ => true) (initLedger (snapshotNames Gsda ["sda"]))
        [UIEvent.stageShrink "sda1" 50, UIEvent.undo "sda1", UIEvent.stageRemove "sda1"]
      = some [("sda", []), ("sda1", [⟨"remove", 0⟩])] ∧
      shallow Gsda ["sda"] "zzz" = false ∧
      seqOf [("sda", []), ("sda1", [⟨"remove", 0⟩])] "zzz" = [] ∧
      uiStep Gdisk ["sdb"] (fun _ => true) (initLedger (snapshotNames Gdisk ["sdb"]))
        (UIEvent.stageRemove "sdb") = none ∧
      (∀ a ∈ seqOf (initLedger (snapshotNames Gdisk ["sdb"])) "sdb",
        a.type ≠ "remove") :=
  ⟨by decide, by decide,
    (C10_action_depth_limits Gsda ["sda"] (fun _ => true)
      [UIEvent.stageShrink "sda1" 50, UIEvent.undo "sda1", UIEvent.stageRemove "sda1"]
      [("sda", []), ("sda1", [⟨"remove", 0⟩])] (by decide)).1 "zzz" (by decide),
    by decide,
    (C10_action_depth_limits Gdisk ["sdb"] (fun _ => true) [] _ (by decide)).2
      "sdb" (by decide) (by decide)⟩

/-! ## Claim C8: ledger key stability -/

/-- C8: at construction every key is mapped to the empty sequence and
the key set is exactly the snapshot delivered for the selected disks;
afterwards neither `append` nor `undoLast` ever adds or deletes a key —
they only rewrite one device's sequence. -/
theorem C8_key_invariant (G : DeviceGraph) (sel : List String) :
    keysOf (initLedger (snapshotNames G sel)) = snapshotNames G sel ∧
      (∀ d ∈ snapshotNames G sel,
        lookupSeq (initLedger (snapshotNames G sel)) d = some []) ∧
      (∀ (L : Ledger) (d : String) (a : ActionItem),
        keysOf (appendA L d a) = keysOf L) ∧
      (∀ (L : Ledger) (d : String), keysOf (undoLast L d) = keysOf L) :=
  ⟨keysOf_initLedger _, fun _ hd => lookup_initLedger hd,
    fun L d a => keysOf_updateAssoc L d (fun s => s ++ [a]),
    fun L d => keysOf_updateAssoc L d (fun s => s.dropLast)⟩

/-- C8 witness: the `sda` snapshot reaches `sda` and `sda1`; the keys of
the fresh ledger are exactly these, `sda1` starts empty, and appending
and undoing keep the key list. -/
theorem C8_key_invariant_witness :
    snapshotNames Gsda ["sda"] = ["sda", "sda1"] ∧
      keysOf (initLedger (snapshotNames Gsda ["sda"])) = snapshotNames Gsda ["sda"] ∧
      lookupSeq (initLedger (snapshotNames Gsda ["sda"])) "sda1" = some [] ∧
      keysOf (appendA (initLedger (snapshotNames Gsda ["sda"])) "sda1" ⟨"remove", 0⟩)
        = keysOf (initLedger (snapshotNames Gsda ["sda"])) :=
  ⟨by decide, (C8_key_invariant Gsda ["sda"]).1,
    (C8_key_invariant Gsda ["sda"]).2.1 "sda1" (by decide),
    (C8_key_invariant Gsda ["sda"]).2.2.1 _ "sda1" ⟨"remove", 0⟩⟩

/-! ## Claim C9: the undo gate -/

/-- C9 counterexample: on the chain `a → b → c` with `remove(a)` staged
and a shrink staged on `c`, the code's gate (`hasUnappliedActions`)
still offers undo for `c` — it checks only the **immediate** parents for
a staged remove — while the claim's predicate (no transitive ancestor
effectively removed) is false. -/
theorem C9_undo_gate_counterexample :
    hasUnappliedActions Gchain Lchain "c" = true ∧
      claimHasAnyAction Gchain Lchain "c" = false ∧
      hasUnappliedActions Gchain Lchain "c" ≠ claimHasAnyAction Gchain Lchain "c" := by
  refine ⟨by decide, by decide, by decide⟩

/-- C9 amended: the gate holds iff the device's own sequence is
non-empty and **no immediate parent** has a `remove` action in its own
sequence (not: no transitive ancestor effectively removed). -/
theorem C9_undo_gate_amended (G : DeviceGraph) (L : Ledger) (d : String) :
    hasUnappliedActions G L d = true ↔
      (seqOf L d ≠ [] ∧
        ∀ p ∈ (G.dev d).parents, ∀ a ∈ seqOf L p, a.type ≠ "remove") := by
  unfold hasUnappliedActions parentHasRemove getDeviceActionOfType
  rw [Bool.and_eq_true, Bool.not_eq_true', decide_eq_true_eq]
  constructor
  · intro ⟨h1, h2⟩
    refine ⟨by
      intro hc
      rw [hc] at h2
      simp at h2, ?_⟩
    intro p hp a ha hty
    have : ((seqOf L p).find? (fun a => a.type == "remove")).isSome = true := by
      rw [List.find?_isSome]
      exact ⟨a, ha, by simp [hty]⟩
    have hfalse := List.any_eq_false.mp h1 p hp
    simp [this] at hfalse
  · intro ⟨h1, h2⟩
    constructor
    · rw [List.any_eq_false]
      intro p hp hsome
      rw [List.find?_isSome] at hsome
      obtain ⟨a, ha, hb⟩ := hsome
      exact h2 p hp a ha (by simpa using hb)
    · exact List.length_pos.mpr h1

/-- C9 witness: the amended gate applied to the counterexample state:
`c`'s sequence is non-empty and its immediate parent `b` holds no
remove, so the code's gate is true. -/
theorem C9_undo_gate_amended_witness :
    hasUnappliedActions Gchain Lchain "c" = true ∧
      seqOf Lchain "c" ≠ [] :=
  ⟨(C9_undo_gate_amended Gchain Lchain "c").mpr
      ⟨by decide, by decide⟩,
    by decide⟩

/-! ## Claim C7: commit submission order and failure -/

/-- Successful run: everything submitted in plan order. -/
lemma runCommit_none {ε : Type} (exec : String → ActionItem → Except ε Unit) :
    ∀ plan, (runCommit exec plan).2 = none →
      (runCommit exec plan).1 = plan ∧ ∀ p ∈ plan, exec p.1 p.2 = Except.ok () := by
  intro plan
  induction plan with
  | nil => exact fun _ => ⟨rfl, by simp⟩
  | cons q rest ih =>
    obtain ⟨d, a⟩ := q
    intro h
    cases hx : exec d a with
    | ok u =>
      simp only [runCommit, hx] at h ⊢
      obtain ⟨h1, h2⟩ := ih h
      refine ⟨by rw [h1], ?_⟩
      intro p hp
      rcases List.mem_cons.mp hp with heq | hmem
      · subst heq
        cases u
        exact hx
      · exact h2 p hmem
    | error e =>
      simp [runCommit, hx] at h

/-- Failing run: a prefix of the plan was submitted, ending exactly at
the first failing action, which is reported with its device and kind. -/
lemma runCommit_some {ε : Type} (exec : String → ActionItem → Except ε Unit) :
    ∀ plan d t e, (runCommit exec plan).2 = some (d, t, e) →
      ∃ pre a post, plan = pre ++ (d, a) :: post ∧
        (runCommit exec plan).1 = pre ++ [(d, a)] ∧ a.type = t ∧
        exec d a = Except.error e ∧ ∀ p ∈ pre, exec p.1 p.2 = Except.ok () := by
  intro plan
  induction plan with
  | nil =>
    intro d t e h
    simp [runCommit] at h
  | cons q rest ih =>
    obtain ⟨d0, a0⟩ := q
    intro d t e h
    cases hx : exec d0 a0 with
    | ok u =>
      simp only [runCommit, hx] at h ⊢
      obtain ⟨pre, a, post, h1, h2, h3, h4, h5⟩ := ih d t e h
      refine ⟨(d0, a0) :: pre, a, post, by simp [h1], by simp [h2], h3, h4, ?_⟩
      intro p hp
      rcases List.mem_cons.mp hp with heq | hmem
      · subst heq
        cases u
        exact hx
      · exact h5 p hmem
    | error e0 =>
      simp only [runCommit, hx, Option.some.injEq, Prod.mk.injEq] at h
      obtain ⟨hd, ht, he⟩ := h
      subst hd; subst ht; subst he
      exact ⟨[], a0, rest, rfl, by simp [runCommit, hx], rfl, hx, by simp⟩

/-- C7: on confirmation the staged plan is submitted sequentially in
ledger order (device by device, action by action); the submitted calls
always form a prefix of the plan; a fully successful run submits
everything and advances; the first failure stops the run, is reported
with the offending device and action kind and the executor's payload,
everything before it had succeeded, and the dialog does not advance;
and the staged-action ledger itself is left unchanged. -/
theorem C7_commit_order {ε : Type} (exec : String → ActionItem → Except ε Unit)
    (L : Ledger) :
    (∃ rest, commitPlan L = (onReclaim exec L).submitted ++ rest) ∧
      ((onReclaim exec L).error = none →
        (onReclaim exec L).submitted = commitPlan L ∧
          (onReclaim exec L).next = true ∧
          ∀ p ∈ commitPlan L, exec p.1 p.2 = Except.ok ()) ∧
      (∀ d t e, (onReclaim exec L).error = some (d, t, e) →
        ∃ pre a post, commitPlan L = pre ++ (d, a) :: post ∧
          (onReclaim exec L).submitted = pre ++ [(d, a)] ∧ a.type = t ∧
          exec d a = Except.error e ∧
          (∀ p ∈ pre, exec p.1 p.2 = Except.ok ()) ∧
          (onReclaim exec L).next = false) ∧
      (onReclaim exec L).ledgerAfter = L := by
  refine ⟨?_, ?_, ?_, rfl⟩
  · rcases herr : (runCommit exec (commitPlan L)).2 with _ | ⟨⟨d, t, e⟩⟩
    · obtain ⟨h1, _⟩ := runCommit_none exec (commitPlan L) herr
      exact ⟨[], by simp [onReclaim, h1]⟩
    · obtain ⟨pre, a, post, h1, h2, _, _, _⟩ :=
        runCommit_some exec (commitPlan L) d t e herr
      refine ⟨post, ?_⟩
      show commitPlan L = (runCommit exec (commitPlan L)).1 ++ post
      rw [h2, h1]
      simp
  · intro h
    have h' : (runCommit exec (commitPlan L)).2 = none := h
    obtain ⟨h1, h2⟩ := runCommit_none exec (commitPlan L) h'
    refine ⟨h1, ?_, h2⟩
    show ((runCommit exec (commitPlan L)).2).isNone = true
    rw [h']
    rfl
  · intro d t e h
    have h' : (runCommit exec (commitPlan L)).2 = some (d, t, e) := h
    obtain ⟨pre, a, post, h1, h2, h3, h4, h5⟩ :=
      runCommit_some exec (commitPlan L) d t e h'
    refine ⟨pre, a, post, h1, h2, h3, h4, h5, ?_⟩
    show ((runCommit exec (commitPlan L)).2).isNone = false
    rw [h']
    rfl

/-- C7 witness: on the status scenario's ledger with an executor that
fails on `p2`, the run submits `remove(p1)` then `shrink(p2)` in plan
order, reports `p2` with kind `shrink` and the opaque payload, does not
advance, and leaves the ledger unchanged. -/
theorem C7_commit_order_witness :
    (onReclaim execFailP2 LstatusMore).ledgerAfter = LstatusMore ∧
      (∃ rest, commitPlan LstatusMore
        = (onReclaim execFailP2 LstatusMore).submitted ++ rest) ∧
      (onReclaim execFailP2 LstatusMore).error = some ("p2", "shrink", "boom") ∧
      (onReclaim execFailP2 LstatusMore).submitted
        = [("p1", ⟨"remove", 0⟩), ("p2", ⟨"shrink", 140⟩)] ∧
      (onReclaim execFailP2 LstatusMore).next = false :=
  ⟨(C7_commit_order execFailP2 LstatusMore).2.2.2,
    (C7_commit_order execFailP2 LstatusMore).1,
    by decide, by decide, by decide⟩

/-! ## Claim C5: undo on an empty sequence -/

/-- C5 counterexample: `undoLast` on a device with an empty sequence is
a silent no-op — JavaScript `pop()` on an empty array returns
`undefined` and leaves it empty — not a loud `EmptySequence` failure:
the ledger is returned unchanged. -/
theorem C5_undo_empty_counterexample :
    undoLast Lempty "sda" = Lempty := by decide

/-- C5 amended: on an empty sequence `undoLast` silently leaves every
device's entry unchanged (a no-op, not an error); on a non-empty
sequence it removes exactly the most recent (last-appended) action of
that device and touches no other device. -/
theorem C5_undo_amended (L : Ledger) (d : String) :
    (lookupSeq L d = some [] →
        ∀ d', lookupSeq (undoLast L d) d' = lookupSeq L d') ∧
      ∀ s a, lookupSeq L d = some (s ++ [a]) →
        lookupSeq (undoLast L d) d = some s ∧
          ∀ d', d' ≠ d → lookupSeq (undoLast L d) d' = lookupSeq L d' := by
  constructor
  · intro h d'
    by_cases hd : d' = d
    · subst hd
      rw [undoLast, lookup_updateAssoc_self, h]
      rfl
    · rw [undoLast, lookup_updateAssoc_ne L hd]
  · intro s a h
    constructor
    · rw [undoLast, lookup_updateAssoc_self, h]
      simp [List.dropLast_concat]
    · intro d' hd
      rw [undoLast, lookup_updateAssoc_ne L hd]

/-- C5 witness: the amended statement applied to a one-device ledger
with an empty sequence, and to one with a single staged shrink. -/
theorem C5_undo_amended_witness :
    lookupSeq Lempty "sda" = some [] ∧
      (∀ d', lookupSeq (undoLast Lempty "sda") d' = lookupSeq Lempty d') ∧
      lookupSeq Lshrink50 "sda1" = some ([] ++ [⟨"shrink", 50⟩]) ∧
      lookupSeq (undoLast Lshrink50 "sda1") "sda1" = some [] :=
  ⟨by decide, (C5_undo_amended Lempty "sda").1 (by decide), by decide,
    ((C5_undo_amended Lshrink50 "sda1").2 [] ⟨"shrink", 50⟩ (by decide)).1⟩

/-! ## Claim C6: append/undo round trip -/

/-- C6: appending any action to a device present in the ledger and then
undoing that device's last action restores the ledger, and with it every
piece of derived effective state: effective removal, the effectively
shrunk test, the current shrink target, and both reclaimed-space
accounts. -/
theorem C6_undo_inverse (G : DeviceGraph) (L : Ledger) (d : String)
    (k : String) (v : Int) (_hd : d ∈ keysOf L) :
    undoLast (appendA L d ⟨k, v⟩) d = L ∧
      (∀ d', effectivelyRemoved G (undoLast (appendA L d ⟨k, v⟩) d) d'
        = effectivelyRemoved G L d') ∧
      (∀ d', claimShrinkFilter G (undoLast (appendA L d ⟨k, v⟩) d) d'
        = claimShrinkFilter G L d') ∧
      (∀ d', newDeviceSizeOpt (undoLast (appendA L d ⟨k, v⟩) d) d'
        = newDeviceSizeOpt L d') ∧
      reclaimRemove G (undoLast (appendA L d ⟨k, v⟩) d) = reclaimRemove G L ∧
      reclaimShrink G (undoLast (appendA L d ⟨k, v⟩) d) = reclaimShrink G L := by
  have h : undoLast (appendA L d ⟨k, v⟩) d = L := by
    unfold undoLast appendA
    rw [updateAssoc_updateAssoc]
    simp only [List.dropLast_concat]
    exact updateAssoc_id L d
  exact ⟨h, fun d' => by rw [h], fun d' => by rw [h], fun d' => by rw [h],
    by rw [h], by rw [h]⟩

/-- C6 witness: round trip of a `shrink 40` on `sda` over the scenario
ledger. -/
theorem C6_undo_inverse_witness :
    ("sda" ∈ keysOf LsdaOne) ∧
      undoLast (appendA LsdaOne "sda" ⟨"shrink", 40⟩) "sda" = LsdaOne ∧
      reclaimRemove Gsda (undoLast (appendA LsdaOne "sda" ⟨"shrink", 40⟩) "sda")
        = reclaimRemove Gsda LsdaOne :=
  ⟨by decide,
    (C6_undo_inverse Gsda LsdaOne "sda" "shrink" 40 (by decide)).1,
    (C6_undo_inverse Gsda LsdaOne "sda" "shrink" 40 (by decide)).2.2.2.2.1⟩

/-! ## Claim C4: shrink input clamping -/

/-- C4 counterexample: a typed input of `-1` (with a unit multiplier of
`1`, on a device of 100 bytes) resolves to `-1`: the code only clamps
from above with `Math.min(device.total.v, ...)`, so `0 ≤ value` fails —
and the Resize control is then enabled although `0 < value` fails. -/
theorem C4_clamp_counterexample :
    resolveUnitInput 100 (-1) 1 = -1 ∧
      ¬(0 ≤ resolveUnitInput 100 (-1) 1) ∧
      shrinkCommitEnabled 100 (resolveUnitInput 100 (-1) 1) = true ∧
      ¬(0 < resolveUnitInput 100 (-1) 1 ∧ resolveUnitInput 100 (-1) 1 < 100) := by
  have h : resolveUnitInput 100 (-1) 1 = -1 := by
    unfold resolveUnitInput
    norm_num
  refine ⟨h, by rw [h]; norm_num, ?_, by rw [h]; norm_num⟩
  rw [h]
  unfold shrinkCommitEnabled
  norm_num

/-- C4 amended: the resolved typed input never exceeds the device
total, and is nonnegative whenever the entered value and multiplier
are (negative typed inputs are *not* clamped below); a proportional
input `p ∈ [0, 100]` resolves to `round(p/100 · total)`, which does lie
in `[0, total]`; and the Resize control is enabled iff the value is
neither `0` nor the total — which, for values already in `[0, total]`,
is exactly the strict open interval. -/
theorem C4_clamp_amended (total input mult p v : ℚ) (t : ℤ) :
    resolveUnitInput total input mult ≤ total ∧
      (0 ≤ input → 0 ≤ mult → 0 ≤ total → 0 ≤ resolveUnitInput total input mult) ∧
      resolveSliderInput total p = round (p / 100 * total) ∧
      (0 ≤ p → p ≤ 100 → 0 ≤ t →
        0 ≤ resolveSliderInput (t : ℚ) p ∧ resolveSliderInput (t : ℚ) p ≤ t) ∧
      (shrinkCommitEnabled total v = true ↔ (v ≠ 0 ∧ v ≠ total)) ∧
      (0 ≤ v → v ≤ total →
        (shrinkCommitEnabled total v = true ↔ (0 < v ∧ v < total))) := by
  refine ⟨min_le_left total (input * mult), ?_, rfl, ?_, ?_, ?_⟩
  · intro hi hm ht
    exact le_min ht (mul_nonneg hi hm)
  · intro hp0 hp100 ht
    have hx0 : (0 : ℚ) ≤ p / 100 * (t : ℚ) := by
      apply mul_nonneg (by positivity)
      exact_mod_cast ht
    have hxt : p / 100 * (t : ℚ) ≤ (t : ℚ) := by
      have h1 : p / 100 ≤ 1 := by linarith [(div_le_one (by norm_num : (0:ℚ) < 100)).mpr hp100]
      calc p / 100 * (t : ℚ) ≤ 1 * (t : ℚ) := by
            apply mul_le_mul_of_nonneg_right h1
            exact_mod_cast ht
        _ = (t : ℚ) := one_mul _
    constructor
    · show (0 : ℤ) ≤ round (p / 100 * (t : ℚ))
      rw [round_eq]
      have h0 : ⌊(0 : ℚ) + 1 / 2⌋ = 0 := by norm_num
      have hm := Int.floor_mono (show (0 : ℚ) + 1 / 2 ≤ p / 100 * (t : ℚ) + 1 / 2 by linarith)
      rw [h0] at hm
      exact hm
    · show round (p / 100 * (t : ℚ)) ≤ t
      rw [round_eq]
      have ht2 : ⌊(t : ℚ) + 1 / 2⌋ = t := by
        rw [add_comm, Int.floor_add_int]
        norm_num
      have hm := Int.floor_mono
        (show p / 100 * (t : ℚ) + 1 / 2 ≤ (t : ℚ) + 1 / 2 by linarith)
      rw [ht2] at hm
      exact hm
  · unfold shrinkCommitEnabled
    constructor
    · intro h
      by_contra hc
      rw [not_and_or, not_not, not_not] at hc
      rcases hc with hc | hc <;> simp [hc] at h
    · intro ⟨h0, ht⟩
      simp [h0, ht]
  · intro h0 htot
    unfold shrinkCommitEnabled
    constructor
    · intro h
      constructor
      · rcases lt_or_eq_of_le h0 with hlt | heq
        · exact hlt
        · rw [← heq] at h
          simp at h
      · rcases lt_or_eq_of_le htot with hlt | heq
        · exact hlt
        · rw [heq] at h
          simp at h
    · intro ⟨ha, hb⟩
      simp [ne_of_gt ha, ne_of_lt hb]

/-- C4 witness: concrete instances — a 100-byte device, typed input 60
with multiplier 1, slider value 50 resolving to `round(50) = 50`, and
the enablement at `v = 60`. -/
theorem C4_clamp_amended_witness :
    resolveUnitInput 100 60 1 ≤ 100 ∧
      (0 ≤ (60 : ℚ) → 0 ≤ (1 : ℚ) → 0 ≤ (100 : ℚ) → 0 ≤ resolveUnitInput 100 60 1) ∧
      ((0 : ℚ) ≤ 50 → (50 : ℚ) ≤ 100 → 0 ≤ (100 : ℤ) →
        0 ≤ resolveSliderInput ((100 : ℤ) : ℚ) 50 ∧
          resolveSliderInput ((100 : ℤ) : ℚ) 50 ≤ 100) ∧
      (0 ≤ (60 : ℚ) → (60 : ℚ) ≤ 100 →
        (shrinkCommitEnabled 100 60 = true ↔ ((0 : ℚ) < 60 ∧ (60 : ℚ) < 100))) ∧
      shrinkCommitEnabled 100 60 = true := by
  have h := C4_clamp_amended 100 60 1 50 60 100
  refine ⟨h.1, h.2.1, h.2.2.2.1, h.2.2.2.2.2, ?_⟩
  rw [h.2.2.2.2.2 (by norm_num) (by norm_num)]
  norm_num

/-! ## Claim C3: status and commit control -/

/-- C3 counterexample: with the form disabled, the commit control is
disabled although the status is `success` (not `warning`) — on the
status scenario itself (`free = 100`, `required = 500`, 410 bytes
staged).  So "enabled exactly when status is not warning" fails: the
button's disablement is `status === "warning" || isFormDisabled`. -/
theorem C3_status_counterexample :
    statusOf 100 500 Gstatus LstatusMore = "success" ∧
      statusOf 100 500 Gstatus LstatusMore ≠ "warning" ∧
      commitControlEnabled 100 500 Gstatus LstatusMore true = false := by
  refine ⟨by decide, by decide, by decide⟩

/-- C3 amended: `status` is `warning` iff
`freeSpaceOfSelection + totalReclaimed < requiredSize` (equality gives
`success`), `totalReclaimed` is the sum of the remove and shrink
accounts, and the commit control is enabled iff the status is not
`warning` **and** the form is not otherwise disabled. -/
theorem C3_status_amended (free req : Int) (G : DeviceGraph) (L : Ledger) (fd : Bool) :
    (statusOf free req G L = "warning" ↔ free + totalReclaimed G L < req) ∧
      (req ≤ free + totalReclaimed G L ↔ statusOf free req G L = "success") ∧
      (commitControlEnabled free req G L fd = true ↔
        (statusOf free req G L ≠ "warning" ∧ fd = false)) ∧
      totalReclaimed G L = reclaimRemove G L + reclaimShrink G L := by
  have heq : totalReclaimed G L = reclaimRemove G L + reclaimShrink G L := rfl
  unfold commitControlEnabled
  by_cases h : free + totalReclaimed G L < req
  · have hs : statusOf free req G L = "warning" := by rw [statusOf, if_pos h]
    refine ⟨⟨fun _ => h, fun _ => hs⟩, ?_, ?_, heq⟩
    · rw [hs]
      exact iff_of_false (not_le.mpr h) (by decide)
    · rw [hs]
      cases fd <;> decide
  · have hs : statusOf free req G L = "success" := by rw [statusOf, if_neg h]
    refine ⟨?_, ?_, ?_, heq⟩
    · rw [hs]
      exact iff_of_false (fun hc => absurd hc (by decide)) (fun hc => absurd hc h)
    · rw [hs]
      exact iff_of_true (not_lt.mp h) rfl
    · rw [hs]
      cases fd <;> decide

/-- C3 witness: the scenario numbers.  350 bytes staged gives
`warning` (100 + 350 = 450 < 500); one more shrink adding 60 gives
`success` (510 ≥ 500), and then the control is enabled when the form is
not disabled. -/
theorem C3_status_amended_witness :
    totalReclaimed Gstatus Lstatus = 350 ∧
      statusOf 100 500 Gstatus Lstatus = "warning" ∧
      totalReclaimed Gstatus LstatusMore = 410 ∧
      statusOf 100 500 Gstatus LstatusMore = "success" ∧
      commitControlEnabled 100 500 Gstatus LstatusMore false = true ∧
      (statusOf 100 500 Gstatus Lstatus = "warning" ↔
        100 + totalReclaimed Gstatus Lstatus < 500) :=
  ⟨by decide, by decide, by decide, by decide, by decide,
    (C3_status_amended 100 500 Gstatus Lstatus false).1⟩

end Reclaim
